import Mathlib

/-!
Verification of the front-matter property codec and sync-status logic of the
obsidian-githobs plugin (src/helper/properties.ts and src/view/actions.ts).

A document is modelled at the granularity produced by the first thing every
source function does with it, namely data.split(newline): a document is a list
of lines and a line is a list of characters.  JavaScript string and array
primitives used by the source (indexOf returning minus one, slice with a
negative end index, split, trim, startsWith, includes, endsWith, replace-all,
truthiness of empty strings and of zero) are modelled explicitly below, each
with the exact JavaScript semantics the source relies on.
-/

namespace GitHobs

/-- A line of a document: the characters between two newline separators. -/
abbrev Line := List Char

/-- A document, as the list of lines produced by data.split(newline). -/
abbrev Doc := List Line

/-- The double-quote character (codepoint 34). -/
def dquote : Char := Char.ofNat 34

/-- The backslash character (codepoint 92). -/
def bslash : Char := Char.ofNat 92

/-- PROPERTIES_DELIMITER from the source. -/
def DELIM : Line := "---".data

/-- GITHUB_ISSUE_PROPERTY_CODE from the source. -/
def PROP_ISSUE : Line := "github_issue".data

/-- GITHUB_REPO_PROPERTY_CODE from the source. -/
def PROP_REPO : Line := "github_repo".data

/-- GITHUB_ISSUE_TITLE_PROPERTY_CODE from the source. -/
def PROP_TITLE : Line := "github_issue_title".data

/-- JavaScript Array.prototype.indexOf: index of the first occurrence of x,
or minus one when x does not occur. -/
def jsIndexOf {α : Type} [DecidableEq α] : List α → α → Int
  | [], _ => -1
  | a :: as, x =>
    if a = x then 0
    else if jsIndexOf as x = -1 then -1 else jsIndexOf as x + 1

/-- JavaScript Array.prototype.slice(0, e): a negative end index counts from
the end of the array. -/
def jsSliceTo {α : Type} (l : List α) (e : Int) : List α :=
  if e < 0 then l.take ((l.length : Int) + e).toNat else l.take e.toNat

/-- JavaScript Array.prototype.slice(s) with a single start argument. -/
def jsSliceFrom {α : Type} (l : List α) (s : Int) : List α :=
  if s < 0 then l.drop ((l.length : Int) + s).toNat else l.drop s.toNat

/-- JavaScript String.prototype.includes: substring containment. -/
def jsIncludes : Line → Line → Bool
  | [], sub => sub.isEmpty
  | c :: cs, sub => sub.isPrefixOf (c :: cs) || jsIncludes cs sub

/-- The whitespace characters stripped by JavaScript String.prototype.trim
(the ones that can occur in this codebase). -/
def isJsWhitespace (c : Char) : Bool :=
  c = ' ' || c = '\t' || c = '\n' || c = '\r' || c = Char.ofNat 11 || c = Char.ofNat 12

/-- JavaScript String.prototype.trim: strip whitespace from both ends. -/
def jsTrim (s : Line) : Line :=
  ((s.dropWhile isJsWhitespace).reverse.dropWhile isJsWhitespace).reverse

/-- JavaScript String.prototype.split with a one-character separator. -/
def jsSplitChar : Line → Char → List Line
  | [], _ => [[]]
  | c :: cs, sep =>
    match jsSplitChar cs sep with
    | [] => [[]]
    | h :: t => if c = sep then [] :: h :: t else (c :: h) :: t

/-- JavaScript String.prototype.replace with a global pattern: replace every
(leftmost, non-overlapping) occurrence of pat by rep.  The patterns used by
the source are never empty; an empty pattern returns the input unchanged. -/
def jsReplaceAll (s pat rep : Line) : Line :=
  match s with
  | [] => []
  | c :: cs =>
    if pat.isPrefixOf (c :: cs) ∧ pat ≠ [] then
      rep ++ jsReplaceAll ((c :: cs).drop pat.length) pat rep
    else c :: jsReplaceAll cs pat rep
termination_by s.length
decreasing_by
  · rename_i h
    simp only [List.length_drop, List.length_cons]
    have hp : 0 < pat.length := List.length_pos.mpr h.2
    omega
  · simp only [List.length_cons]
    omega

/-- Result record of readProperties. -/
structure ReadPropertiesResult where
  properties : Option (List Line)
  indexEndPropertiesLine : Option Int
deriving DecidableEq, Repr

/-- readProperties from src/helper/properties.ts.  Note the JavaScript
truthiness test on the end-delimiter index: the bang operator treats the
index zero (empty block) as absent and the index minus one (no closing
delimiter) as found. -/
def readProperties (data : Doc) : ReadPropertiesResult :=
  match data with
  | [] => ⟨none, none⟩
  | firstLine :: restOfLines =>
    if firstLine ≠ DELIM then ⟨none, none⟩
    else
      let indexEndPropertiesLine := jsIndexOf restOfLines DELIM
      if indexEndPropertiesLine = 0 then ⟨none, none⟩
      else
        ⟨some (jsSliceTo restOfLines indexEndPropertiesLine),
         some (indexEndPropertiesLine + 1)⟩

/-- removeProperties from src/helper/properties.ts.  The truthiness test
again treats an index of zero like an absent index. -/
def removeProperties (data : Doc) : Doc :=
  match (readProperties data).indexEndPropertiesLine with
  | none => data
  | some idx => if idx = 0 then data else jsSliceFrom data (idx + 1)

/-- readIssueId from src/helper/properties.ts. -/
def readIssueId (data : Doc) : Option Line :=
  match (readProperties data).properties with
  | none => none
  | some properties =>
    match properties.find? (fun p => PROP_ISSUE.isPrefixOf p) with
    | none => none
    | some githubIssueProperty =>
      some (jsTrim (githubIssueProperty.drop (PROP_ISSUE.length + 1)))

/-- writeIssueId from src/helper/properties.ts: note the filter removes every
line that CONTAINS the issue property name as a substring. -/
def writeIssueId (data : Doc) (issueId : Line) : Doc :=
  DELIM ::
    ((match (readProperties data).properties with
      | some properties => properties.filter (fun p => !(jsIncludes p PROP_ISSUE))
      | none => []) ++
     [PROP_ISSUE ++ ':' :: ' ' :: issueId, DELIM])

/-- readRepo from src/helper/properties.ts. -/
def readRepo (data : Doc) : Option Line :=
  match (readProperties data).properties with
  | none => none
  | some properties =>
    match properties.find? (fun p => PROP_REPO.isPrefixOf p) with
    | none => none
    | some githubRepoProperty =>
      some (jsTrim (githubRepoProperty.drop (PROP_REPO.length + 1)))

/-- writeRepo from src/helper/properties.ts. -/
def writeRepo (data : Doc) (repo : Line) : Doc :=
  DELIM ::
    ((match (readProperties data).properties with
      | some properties => properties.filter (fun p => !(jsIncludes p PROP_REPO))
      | none => []) ++
     [PROP_REPO ++ ':' :: ' ' :: repo, DELIM])

/-- Result record of parseRepoOverride. -/
structure RepoOverride where
  owner : Option Line
  repo : Option Line
deriving DecidableEq, Repr

/-- parseRepoOverride from src/helper/properties.ts.  JavaScript truthiness:
an absent or empty input yields the empty record.  An input containing a
slash is split on EVERY slash and the destructuring keeps only the first two
parts. -/
def parseRepoOverride (repoString : Option Line) : RepoOverride :=
  match repoString with
  | none => ⟨none, none⟩
  | some s =>
    if s = [] then ⟨none, none⟩
    else if s.contains '/' then
      let parts := jsSplitChar s '/'
      ⟨some (jsTrim (parts.getD 0 [])), some (jsTrim (parts.getD 1 []))⟩
    else ⟨none, some (jsTrim s)⟩

/-- The owner, repo and token fields of the global plugin settings. -/
structure RepoSettings where
  owner : Line
  repo : Line
  token : Line
deriving DecidableEq, Repr

/-- JavaScript a || b on strings: the empty string is falsy. -/
def jsOrElse (v : Option Line) (fallback : Line) : Line :=
  match v with
  | some s => if s = [] then fallback else s
  | none => fallback

/-- getEffectiveRepoSettings from src/helper/properties.ts. -/
def getEffectiveRepoSettings (data : Doc) (settings : RepoSettings) : RepoSettings :=
  let repoOverride := readRepo data
  let o := parseRepoOverride repoOverride
  ⟨jsOrElse o.owner settings.owner, jsOrElse o.repo settings.repo, settings.token⟩

/-- The character class of the escaping regex in escapeYamlString. -/
def yamlSpecialChars : List Char :=
  [':', Char.ofNat 96, Char.ofNat 39, dquote, Char.ofNat 123, Char.ofNat 125,
   '[', ']', '|', '>', '<', '!', '?', '*', '&', '$', '%', '@', '#', bslash]

/-- escapeYamlString from src/helper/properties.ts: an empty string is
returned unchanged (truthiness), a string containing a special character or
a newline is wrapped in double quotes with inner double quotes escaped by a
backslash. -/
def escapeYamlString (str : Line) : Line :=
  if str = [] then []
  else if str.any (fun c => yamlSpecialChars.contains c) || str.contains '\n' then
    dquote :: jsReplaceAll str [dquote] [bslash, dquote] ++ [dquote]
  else str

/-- readIssueTitle from src/helper/properties.ts.  JavaScript
substring(1, length - 1) swaps its arguments when length is 1, hence the
guard on single-character values. -/
def readIssueTitle (data : Doc) : Option Line :=
  match (readProperties data).properties with
  | none => none
  | some properties =>
    match properties.find? (fun p => PROP_TITLE.isPrefixOf p) with
    | none => none
    | some githubIssueTitleProperty =>
      let titlePart := jsTrim (githubIssueTitleProperty.drop (PROP_TITLE.length + 1))
      if [dquote].isPrefixOf titlePart && [dquote].isSuffixOf titlePart then
        let unquoted :=
          if titlePart.length ≤ 1 then titlePart
          else (titlePart.drop 1).take (titlePart.length - 2)
        some (jsReplaceAll unquoted [bslash, dquote] [dquote])
      else some titlePart

/-- writeIssueTitle from src/helper/properties.ts. -/
def writeIssueTitle (data : Doc) (issueTitle : Line) : Doc :=
  let escapedTitle := escapeYamlString issueTitle
  DELIM ::
    ((match (readProperties data).properties with
      | some properties => properties.filter (fun p => !(jsIncludes p PROP_TITLE))
      | none => []) ++
     [PROP_TITLE ++ ':' :: ' ' :: escapedTitle, DELIM])

/-- The three optional arguments of writeAllGithubProperties; none models an
undefined (unsupplied) field, some [] models an explicitly supplied empty
string. -/
structure GithubProps where
  issueId : Option Line
  repo : Option Line
  issueTitle : Option Line
deriving DecidableEq, Repr

/-- One tracked-key block of writeAllGithubProperties: the three if/else
blocks of the source all have this shape.  A supplied value is written as
given (so an explicitly supplied empty value still emits the key line); an
unsupplied (undefined) value falls back to the value read from the input
document, skipped when that read yields nothing or an empty (falsy) string.
For the title key the written value passes through escapeYamlString, which
is the esc argument; the issue and repo keys write the raw value. -/
def trackedPart (KEY : Line) (esc : Line → Line)
    (supplied existing : Option Line) : List Line :=
  match supplied with
  | some v => [KEY ++ ':' :: ' ' :: esc v]
  | none =>
    match existing with
    | some ex => if ex = [] then [] else [KEY ++ ':' :: ' ' :: esc ex]
    | none => []

/-- writeAllGithubProperties from src/helper/properties.ts: keep every
existing property line that does not START WITH one of the three tracked
property names, then re-emit the three tracked keys in the fixed order
issue id, repo, title, each per the trackedPart rule above. -/
def writeAllGithubProperties (data : Doc) (props : GithubProps) : Doc :=
  let existingProps := (readProperties data).properties
  let otherProps :=
    match existingProps with
    | some ps =>
      ps.filter (fun p =>
        !(PROP_ISSUE.isPrefixOf p) && !(PROP_REPO.isPrefixOf p) &&
        !(PROP_TITLE.isPrefixOf p))
    | none => []
  DELIM ::
    (otherProps ++
     trackedPart PROP_ISSUE (fun v => v) props.issueId (readIssueId data) ++
     trackedPart PROP_REPO (fun v => v) props.repo (readRepo data) ++
     trackedPart PROP_TITLE escapeYamlString props.issueTitle (readIssueTitle data) ++
     [DELIM])

/-- The two non-trivial sync verdicts of the view layer. -/
inductive GitHubIssueStatus where
  | CanPush
  | CanPull
deriving DecidableEq, Repr

/-- The verdict computation of fetchIssue in src/view/actions.ts.
Timestamps are modelled by their epoch-millisecond values: the source
compares Date objects obtained from the remote updated_at string and from
the local stat.mtime number, and such comparisons coerce to milliseconds.
An undefined stat is modelled by mtime = none; the JavaScript truthiness
guard on lastDate makes a zero mtime skip both comparisons. -/
def fetchIssueStatus (remoteUpdatedAt : Int) (mtime : Option Int) : Option GitHubIssueStatus :=
  match mtime with
  | none => none
  | some lastDate =>
    let status : Option GitHubIssueStatus :=
      if lastDate ≠ 0 ∧ lastDate < remoteUpdatedAt then some GitHubIssueStatus.CanPull
      else none
    if lastDate ≠ 0 ∧ remoteUpdatedAt < lastDate then some GitHubIssueStatus.CanPush
    else status

/-- The document content written by updateFile in src/view/actions.ts
(the pull path passes the remote issue body as externalData): the new
front-matter block produced by writeAllGithubProperties on
dataToUse = externalData or originalData, with the issue number supplied,
the repo override read from the ORIGINAL file data, the title unsupplied,
followed by dataToUse with its old block stripped. -/
def updateFileContent (originalData : Doc) (externalData : Option Doc)
    (resNumber : Line) : Doc :=
  let dataToUse := externalData.getD originalData
  let repoOverride := readRepo originalData
  let updatedProperties :=
    writeAllGithubProperties dataToUse ⟨some resNumber, repoOverride, none⟩
  updatedProperties ++ removeProperties dataToUse

/-- The document content written by pullIssue in src/view/actions.ts:
updateFile applied to the fetched remote body. -/
def pullIssueContent (fileData : Doc) (resBody : Doc) (resNumber : Line) : Doc :=
  updateFileContent fileData (some resBody) resNumber

/-! ### Helper lemmas about the JavaScript primitives -/

theorem jsIndexOf_ge_neg_one {α : Type} [DecidableEq α] (l : List α) (x : α) :
    -1 ≤ jsIndexOf l x := by
  induction l with
  | nil => simp [jsIndexOf]
  | cons a as ih =>
    simp only [jsIndexOf]
    split
    · omega
    · split
      · omega
      · omega

theorem jsIndexOf_eq_neg_one_iff {α : Type} [DecidableEq α] {l : List α} {x : α} :
    jsIndexOf l x = -1 ↔ x ∉ l := by
  induction l with
  | nil => simp [jsIndexOf]
  | cons a as ih =>
    simp only [jsIndexOf, List.mem_cons]
    by_cases hax : a = x
    · simp [hax]
    · have hne : x ≠ a := fun h => hax h.symm
      simp only [hax, if_false]
      by_cases hr : jsIndexOf as x = -1
      · simp [hr, ih.mp hr, hne]
      · have := jsIndexOf_ge_neg_one as x
        simp only [hr, if_false]
        constructor
        · intro h; omega
        · intro h
          exact absurd (ih.mpr (fun hm => h (Or.inr hm))) hr

theorem jsIndexOf_append_cons {α : Type} [DecidableEq α] (pre suf : List α) (x : α)
    (h : x ∉ pre) : jsIndexOf (pre ++ x :: suf) x = pre.length := by
  induction pre with
  | nil => simp [jsIndexOf]
  | cons a pre' ih =>
    have hax : a ≠ x := fun he => h (he ▸ List.mem_cons_self a pre')
    have hx' : x ∉ pre' := fun hm => h (List.mem_cons_of_mem a hm)
    have hr := ih hx'
    simp only [List.cons_append, jsIndexOf, hax, if_false]
    rw [show pre'.append (x :: suf) = pre' ++ x :: suf from rfl, hr]
    have hne1 : (pre'.length : Int) ≠ -1 := by omega
    simp only [hne1, if_false, List.length_cons]
    push_cast
    ring

theorem not_mem_take_jsIndexOf {α : Type} [DecidableEq α] (l : List α) (x : α) :
    x ∉ l.take (jsIndexOf l x).toNat := by
  induction l with
  | nil => simp
  | cons a as ih =>
    simp only [jsIndexOf]
    by_cases hax : a = x
    · simp [hax]
    · simp only [hax, if_false]
      by_cases hr : jsIndexOf as x = -1
      · simp [hr]
      · have hge := jsIndexOf_ge_neg_one as x
        have hnn : 0 ≤ jsIndexOf as x := by omega
        have : (jsIndexOf as x + 1).toNat = (jsIndexOf as x).toNat + 1 := by omega
        simp only [hr, if_false, this, List.take_succ_cons, List.mem_cons]
        intro hmem
        rcases hmem with he | hm
        · exact hax he.symm
        · exact ih hm

theorem isPrefixOf_eq_true_iff {l s : Line} :
    l.isPrefixOf s = true ↔ ∃ t, s = l ++ t := by
  induction l generalizing s with
  | nil => simp [List.isPrefixOf]
  | cons a as ih =>
    cases s with
    | nil =>
      simp [List.isPrefixOf]
    | cons b bs =>
      simp only [List.isPrefixOf, Bool.and_eq_true, beq_iff_eq, ih, List.cons_append,
        List.cons.injEq]
      constructor
      · rintro ⟨hab, t, ht⟩
        exact ⟨t, hab.symm, ht⟩
      · rintro ⟨t, hab, ht⟩
        exact ⟨hab.symm, t, ht⟩

theorem isPrefixOf_self_append (l t : Line) : l.isPrefixOf (l ++ t) = true :=
  isPrefixOf_eq_true_iff.mpr ⟨t, rfl⟩

theorem jsIncludes_of_isPrefixOf {s sub : Line} (h : sub.isPrefixOf s = true) :
    jsIncludes s sub = true := by
  cases s with
  | nil =>
    cases sub with
    | nil => rfl
    | cons c cs => simp [List.isPrefixOf] at h
  | cons c cs => simp [jsIncludes, h]

theorem isPrefixOf_false_of_not_includes {s sub : Line} (h : jsIncludes s sub = false) :
    sub.isPrefixOf s = false := by
  by_contra hne
  have : sub.isPrefixOf s = true := by
    cases hp : sub.isPrefixOf s
    · exact absurd hp hne
    · rfl
  rw [jsIncludes_of_isPrefixOf this] at h
  exact absurd h (by simp)

theorem jsTrim_cons_of_ws {c : Char} {l : Line} (h : isJsWhitespace c = true) :
    jsTrim (c :: l) = jsTrim l := by
  simp [jsTrim, List.dropWhile_cons, h]

theorem jsTrim_sandwich {a b : Char} (m : Line)
    (ha : isJsWhitespace a = false) (hb : isJsWhitespace b = false) :
    jsTrim (a :: m ++ [b]) = a :: m ++ [b] := by
  have h1 : (a :: m ++ [b]).dropWhile isJsWhitespace = a :: m ++ [b] := by
    simp [List.dropWhile_cons, ha]
  have h2 : (a :: m ++ [b]).reverse = b :: m.reverse ++ [a] := by
    simp
  have h3 : (b :: m.reverse ++ [a]).dropWhile isJsWhitespace = b :: m.reverse ++ [a] := by
    simp [List.dropWhile_cons, hb]
  simp only [jsTrim, h1, h2, h3]
  simp

theorem jsTrim_singleton_of_ws {c : Char} (h : isJsWhitespace c = true) :
    jsTrim [c] = [] := by
  simp [jsTrim, List.dropWhile_cons, h, List.dropWhile_nil]

/-! ### Structure of readProperties and of the writer outputs -/

theorem props_ne_delim {data : Doc} {ps : List Line}
    (h : (readProperties data).properties = some ps) : ∀ p ∈ ps, p ≠ DELIM := by
  intro p hp
  match data with
  | [] => simp [readProperties] at h
  | firstLine :: rest =>
    by_cases hf : firstLine = DELIM
    · simp only [readProperties, hf, ne_eq, not_true_eq_false, if_false, ite_not] at h
      by_cases h0 : jsIndexOf rest DELIM = 0
      · simp [h0] at h
      · simp only [h0, if_false] at h
        have hps : jsSliceTo rest (jsIndexOf rest DELIM) = ps := by
          simpa using h
        by_cases hneg : jsIndexOf rest DELIM < 0
        · have hm1 : jsIndexOf rest DELIM = -1 := by
            have := jsIndexOf_ge_neg_one rest DELIM
            omega
          have hnotmem : DELIM ∉ rest := jsIndexOf_eq_neg_one_iff.mp hm1
          have hsub : ps ⊆ rest := by
            rw [← hps]
            simp only [jsSliceTo, hm1, if_pos (by omega : (-1 : Int) < 0)]
            exact List.take_subset _ _
          intro he
          exact hnotmem (he ▸ hsub hp)
        · have : jsSliceTo rest (jsIndexOf rest DELIM) =
              rest.take (jsIndexOf rest DELIM).toNat := by
            simp [jsSliceTo, hneg]
          rw [this] at hps
          intro he
          subst he
          rw [← hps] at hp
          exact not_mem_take_jsIndexOf rest DELIM hp
    · simp [readProperties, hf] at h

theorem readProperties_block (middle : List Line) (hm : ∀ p ∈ middle, p ≠ DELIM)
    (hne : middle ≠ []) :
    readProperties (DELIM :: (middle ++ [DELIM])) =
      ⟨some middle, some ((middle.length : Int) + 1)⟩ := by
  have hnotmem : DELIM ∉ middle := fun hmem => (hm _ hmem) rfl
  have hidx : jsIndexOf (middle ++ [DELIM]) DELIM = middle.length :=
    jsIndexOf_append_cons middle [] DELIM hnotmem
  have h0 : middle.length ≠ 0 := fun h => hne (List.length_eq_zero.mp h)
  have hlen : (middle.length : Int) ≠ 0 := by omega
  simp only [readProperties, ne_eq, not_true_eq_false, if_false, ite_not, hidx, hlen,
    if_pos, jsSliceTo]
  rw [if_neg (by omega : ¬ (middle.length : Int) < 0)]
  simp [List.take_left]

theorem keyLine_ne_delim (KEY val : Line) (h : 1 < KEY.length) :
    KEY ++ ':' :: ' ' :: val ≠ DELIM := by
  intro he
  have hlen : (KEY ++ ':' :: ' ' :: val).length = DELIM.length := congrArg List.length he
  have h3 : DELIM.length = 3 := rfl
  simp only [List.length_append, List.length_cons, h3] at hlen
  omega

theorem drop_keyLine (KEY val : Line) :
    (KEY ++ ':' :: ' ' :: val).drop (KEY.length + 1) = ' ' :: val := by
  have hsplit : KEY ++ ':' :: ' ' :: val = (KEY ++ [':']) ++ ' ' :: val := by simp
  rw [hsplit, List.drop_left' (by simp)]

theorem find?_append_of_left_none {p : Line → Bool} {l₁ l₂ : List Line}
    (h : ∀ x ∈ l₁, p x = false) : (l₁ ++ l₂).find? p = l₂.find? p := by
  rw [List.find?_append]
  have hn : l₁.find? p = none := List.find?_eq_none.mpr (by intro x hx; simp [h x hx])
  simp [hn]

theorem find?_filtered_append_key (KEY : Line) (filtered : List Line) (kl : Line)
    (hfp : ∀ p ∈ filtered, KEY.isPrefixOf p = false)
    (hk : KEY.isPrefixOf kl = true) :
    (filtered ++ [kl]).find? (fun p => KEY.isPrefixOf p) = some kl := by
  rw [find?_append_of_left_none hfp]
  simp [List.find?, hk]

/-! ### The escaping of title values and its inverse -/

theorem jsReplaceAll_nil (pat rep : Line) : jsReplaceAll [] pat rep = [] := by
  simp [jsReplaceAll]

theorem jsReplaceAll_cons_pos {c : Char} {cs pat rep : Line}
    (h : pat.isPrefixOf (c :: cs) = true) (hne : pat ≠ []) :
    jsReplaceAll (c :: cs) pat rep =
      rep ++ jsReplaceAll ((c :: cs).drop pat.length) pat rep := by
  rw [jsReplaceAll]
  simp [h, hne]

theorem jsReplaceAll_cons_neg {c : Char} {cs pat rep : Line}
    (h : ¬(pat.isPrefixOf (c :: cs) = true ∧ pat ≠ [])) :
    jsReplaceAll (c :: cs) pat rep = c :: jsReplaceAll cs pat rep := by
  rw [jsReplaceAll]
  simp only [if_neg h]

theorem escRep_cons_dq (cs : Line) :
    jsReplaceAll (dquote :: cs) [dquote] [bslash, dquote] =
      bslash :: dquote :: jsReplaceAll cs [dquote] [bslash, dquote] := by
  rw [jsReplaceAll_cons_pos (by simp [List.isPrefixOf]) (by simp)]
  simp

theorem escRep_cons_ne {c : Char} (h : c ≠ dquote) (cs : Line) :
    jsReplaceAll (c :: cs) [dquote] [bslash, dquote] =
      c :: jsReplaceAll cs [dquote] [bslash, dquote] := by
  apply jsReplaceAll_cons_neg
  rintro ⟨hp, -⟩
  simp [List.isPrefixOf] at hp
  exact h hp.symm

theorem unescRep_cons₂ (cs : Line) :
    jsReplaceAll (bslash :: dquote :: cs) [bslash, dquote] [dquote] =
      dquote :: jsReplaceAll cs [bslash, dquote] [dquote] := by
  rw [jsReplaceAll_cons_pos (by simp [List.isPrefixOf]) (by simp)]
  simp

theorem unescRep_cons_ne {c : Char} {cs : Line}
    (h : [bslash, dquote].isPrefixOf (c :: cs) = false) :
    jsReplaceAll (c :: cs) [bslash, dquote] [dquote] =
      c :: jsReplaceAll cs [bslash, dquote] [dquote] := by
  apply jsReplaceAll_cons_neg
  rintro ⟨hp, -⟩
  rw [h] at hp
  exact absurd hp (by simp)

theorem escRep_head_ne_dq (cs : Line) :
    (jsReplaceAll cs [dquote] [bslash, dquote]).head? ≠ some dquote := by
  cases cs with
  | nil => simp [jsReplaceAll_nil]
  | cons c cs' =>
    by_cases hc : c = dquote
    · subst hc
      rw [escRep_cons_dq]
      simp only [List.head?_cons, ne_eq, Option.some.injEq]
      decide
    · rw [escRep_cons_ne hc]
      simp [hc]

theorem unesc_esc (v : Line) :
    jsReplaceAll (jsReplaceAll v [dquote] [bslash, dquote]) [bslash, dquote] [dquote] = v := by
  induction v with
  | nil => simp [jsReplaceAll_nil]
  | cons c cs ih =>
    by_cases hc : c = dquote
    · subst hc
      rw [escRep_cons_dq, unescRep_cons₂, ih]
    · rw [escRep_cons_ne hc]
      by_cases hb : c = bslash
      · subst hb
        have hne : [bslash, dquote].isPrefixOf
            (bslash :: jsReplaceAll cs [dquote] [bslash, dquote]) = false := by
          cases hE : jsReplaceAll cs [dquote] [bslash, dquote] with
          | nil => simp [List.isPrefixOf]
          | cons d ds =>
            have hd := escRep_head_ne_dq cs
            rw [hE] at hd
            simp only [List.head?_cons, ne_eq, Option.some.injEq] at hd
            have hdq : (dquote == d) = false := by
              simp only [beq_eq_false_iff_ne, ne_eq]
              exact fun he => hd he.symm
            simp [List.isPrefixOf, hdq]
        rw [unescRep_cons_ne hne, ih]
      · have hbc : (bslash == c) = false := by
          simp only [beq_eq_false_iff_ne, ne_eq]
          exact fun he => hb he.symm
        have hne : [bslash, dquote].isPrefixOf
            (c :: jsReplaceAll cs [dquote] [bslash, dquote]) = false := by
          simp [List.isPrefixOf, hbc]
        rw [unescRep_cons_ne hne, ih]

/-! ### Shape lemmas for the tracked parts and key lines -/

theorem trackedPart_shape {KEY : Line} {esc : Line → Line}
    {supplied existing : Option Line} {p : Line}
    (hp : p ∈ trackedPart KEY esc supplied existing) :
    ∃ w, p = KEY ++ ':' :: ' ' :: w := by
  rcases supplied with _ | v
  · rcases existing with _ | ex
    · simp [trackedPart] at hp
    · by_cases he : ex = []
      · simp [trackedPart, he] at hp
      · simp only [trackedPart, he, if_false, List.mem_singleton] at hp
        exact ⟨esc ex, hp⟩
  · simp only [trackedPart, List.mem_singleton] at hp
    exact ⟨esc v, hp⟩

theorem trackedPart_ne_delim {KEY : Line} (hK : 1 < KEY.length) {esc : Line → Line}
    {supplied existing : Option Line} {p : Line}
    (hp : p ∈ trackedPart KEY esc supplied existing) : p ≠ DELIM := by
  obtain ⟨w, rfl⟩ := trackedPart_shape hp
  exact keyLine_ne_delim KEY w hK

theorem issue_line_ne_repo_ext (z t : Line) :
    PROP_ISSUE ++ z ≠ PROP_REPO ++ t := by
  intro h
  have h7 := congrArg (fun l => l[7]?) h
  simp only at h7
  rw [List.getElem?_append_left (by decide : 7 < PROP_ISSUE.length),
    List.getElem?_append_left (by decide : 7 < PROP_REPO.length)] at h7
  exact absurd h7 (by decide)

theorem issue_line_ne_title_ext (z t : Line) :
    PROP_ISSUE ++ ':' :: z ≠ PROP_TITLE ++ t := by
  intro h
  have h12 := congrArg (fun l => l[12]?) h
  simp only at h12
  rw [List.getElem?_append_right (by decide : PROP_ISSUE.length ≤ 12),
    List.getElem?_append_left (by decide : 12 < PROP_TITLE.length),
    show 12 - PROP_ISSUE.length = 0 from rfl] at h12
  simp only [List.getElem?_cons_zero] at h12
  exact absurd h12 (by decide)

theorem repo_line_ne_title_ext (z t : Line) :
    PROP_REPO ++ z ≠ PROP_TITLE ++ t := by
  intro h
  have h7 := congrArg (fun l => l[7]?) h
  simp only at h7
  rw [List.getElem?_append_left (by decide : 7 < PROP_REPO.length),
    List.getElem?_append_left (by decide : 7 < PROP_TITLE.length)] at h7
  exact absurd h7 (by decide)

theorem not_prefixOf_of_ne {K l : Line} (h : ∀ t, l ≠ K ++ t) :
    K.isPrefixOf l = false := by
  cases hp : K.isPrefixOf l
  · rfl
  · obtain ⟨t, ht⟩ := isPrefixOf_eq_true_iff.mp hp
    exact absurd ht (h t)

theorem escape_ne_nil {v : Line} (h : v ≠ []) : escapeYamlString v ≠ [] := by
  unfold escapeYamlString
  rw [if_neg h]
  by_cases hq : (v.any (fun c => yamlSpecialChars.contains c) || v.contains '\n') = true
  · rw [if_pos hq]
    simp
  · rw [if_neg hq]
    exact h

/-! ### Claim theorems -/

/-- C2: evaluation of the code at a document whose first line is the
delimiter but which contains no closing delimiter: contrary to the stated
contract, readProperties returns a PRESENT block (all remaining lines but
the last) and a property read on it succeeds, because the JavaScript
truthiness test treats the indexOf result minus one as a found index. -/
theorem c2_missing_close_reads_present :
    (readProperties ["---".data, "github_issue: 5".data, "body".data]).properties =
      some ["github_issue: 5".data] ∧
    readIssueId ["---".data, "github_issue: 5".data, "body".data] = some "5".data := by
  decide

/-- C4: evaluation of the code at a document whose first two lines are both
the delimiter: contrary to the claim, readProperties returns an ABSENT
block, because the truthiness test treats the end index zero as absent. -/
theorem c4_empty_block_reads_absent :
    readProperties ["---".data, "---".data] = ⟨none, none⟩ := by
  decide

/-- C3: for a defined and nonzero local modification time, the fetch verdict
is CanPull when the remote updated_at is strictly greater, CanPush when it
is strictly smaller, and stays none when the two timestamps are equal. -/
theorem c3_fetch_verdict (remoteUpdatedAt lastDate : Int) (h : lastDate ≠ 0) :
    (lastDate < remoteUpdatedAt →
        fetchIssueStatus remoteUpdatedAt (some lastDate) = some GitHubIssueStatus.CanPull) ∧
    (remoteUpdatedAt < lastDate →
        fetchIssueStatus remoteUpdatedAt (some lastDate) = some GitHubIssueStatus.CanPush) ∧
    (remoteUpdatedAt = lastDate →
        fetchIssueStatus remoteUpdatedAt (some lastDate) = none) := by
  refine ⟨?_, ?_, ?_⟩ <;> intro hcmp <;> simp only [fetchIssueStatus]
  · rw [if_neg (by rintro ⟨-, hlt⟩; omega), if_pos ⟨h, hcmp⟩]
  · rw [if_pos ⟨h, hcmp⟩]
  · rw [if_neg (by rintro ⟨-, hlt⟩; omega), if_neg (by rintro ⟨-, hlt⟩; omega)]

/-- Witness for C3 at concrete timestamps. -/
theorem c3_fetch_verdict_witness :
    fetchIssueStatus 2 (some 1) = some GitHubIssueStatus.CanPull ∧
    fetchIssueStatus 0 (some 1) = some GitHubIssueStatus.CanPush ∧
    fetchIssueStatus 1 (some 1) = none :=
  ⟨(c3_fetch_verdict 2 1 (by decide)).1 (by decide),
   (c3_fetch_verdict 0 1 (by decide)).2.1 (by decide),
   (c3_fetch_verdict 1 1 (by decide)).2.2 rfl⟩

/-- C5: evaluation of the pull path at a local document with NO repo
override and a fetched remote body that carries a github_repo line: the
written document adopts the override from the remote body, contradicting
the claim that the remote body is never the source of the override. -/
theorem c5_pull_adopts_remote_override :
    readRepo ["x".data] = none ∧
    readRepo (pullIssueContent ["x".data]
        ["---".data, "github_repo: evil/repo".data, "---".data, "body".data]
        "1".data) = some "evil/repo".data := by
  decide

/-- C7 counterexample: on the input a/b/c the split keeps only the first two
segments, so the repo part is b, not b/c as the claim states. -/
theorem c7_multislash_cex :
    parseRepoOverride (some "a/b/c".data) = ⟨some "a".data, some "b".data⟩ ∧
    some "b".data ≠ some "b/c".data := by
  decide

/-- C8 counterexample: with the override /widgets the empty owner segment is
falsy, so the JavaScript or-operator falls back to the global owner; the
effective owner is the global one, not the empty string as the claim
states. -/
theorem c8_empty_owner_cex :
    (getEffectiveRepoSettings ["---".data, "github_repo: /widgets".data, "---".data]
        ⟨"gowner".data, "grepo".data, "gtoken".data⟩).owner = "gowner".data ∧
    "gowner".data ≠ ([] : Line) := by
  decide

/-- C6 counterexample: supplying the explicit empty string does NOT omit
the key, for any of the three tracked keys: clearing all three on a
document that carries all three still emits all three key lines, each with
an empty value. -/
theorem c6_empty_not_omitted_cex :
    writeAllGithubProperties
      ["---".data, "github_issue: 7".data, "github_repo: o/r".data,
       "github_issue_title: T".data, "---".data]
      ⟨some [], some [], some []⟩ =
      ["---".data, "github_issue: ".data, "github_repo: ".data,
       "github_issue_title: ".data, "---".data] := by
  decide

/-- C9 counterexample: writing an issue id with leading whitespace and
reading it back returns the trimmed value, not the value written. -/
theorem c9_trim_cex :
    readIssueId (writeIssueId ["---".data, "a: b".data, "---".data] " 5".data) ≠
      some " 5".data := by
  decide

/-- C1 counterexample: a line whose key is github_issues (not one of the
three tracked keys) nevertheless STARTS WITH the tracked name github_issue,
so the prefix-based filter of writeAllGithubProperties drops it. -/
theorem c1_untracked_key_dropped_cex :
    "github_issues: open".data ∈
      ((readProperties ["---".data, "github_issues: open".data, "---".data]).properties.getD []) ∧
    "github_issues: open".data ∉
      ((readProperties (writeAllGithubProperties
          ["---".data, "github_issues: open".data, "---".data]
          ⟨some "1".data, none, none⟩)).properties.getD []) := by
  decide

theorem filter_not_includes_facts (KEY : Line) {data : Doc} {ps : List Line}
    (hps : (readProperties data).properties = some ps) :
    (∀ p ∈ ps.filter (fun p => !(jsIncludes p KEY)), p ≠ DELIM) ∧
    (∀ p ∈ ps.filter (fun p => !(jsIncludes p KEY)), KEY.isPrefixOf p = false) := by
  constructor
  · intro p hp
    exact props_ne_delim hps p (List.mem_of_mem_filter hp)
  · intro p hp
    have h2 := (List.mem_filter.mp hp).2
    have hfalse : jsIncludes p KEY = false := by
      cases h : jsIncludes p KEY
      · rfl
      · rw [h] at h2
        exact absurd h2 (by simp)
    exact isPrefixOf_false_of_not_includes hfalse

theorem readIssueId_write_form (F : List Line) (val : Line)
    (hFd : ∀ p ∈ F, p ≠ DELIM) (hFp : ∀ p ∈ F, PROP_ISSUE.isPrefixOf p = false) :
    readIssueId (DELIM :: (F ++ [PROP_ISSUE ++ ':' :: ' ' :: val, DELIM])) =
      some (jsTrim val) := by
  have hnd : ∀ p ∈ F ++ [PROP_ISSUE ++ ':' :: ' ' :: val], p ≠ DELIM := by
    intro p hp
    rcases List.mem_append.mp hp with h1 | h2
    · exact hFd p h1
    · rw [List.mem_singleton] at h2
      subst h2
      exact keyLine_ne_delim _ _ (by decide)
  have hshape : (DELIM :: (F ++ [PROP_ISSUE ++ ':' :: ' ' :: val, DELIM]) : Doc) =
      DELIM :: ((F ++ [PROP_ISSUE ++ ':' :: ' ' :: val]) ++ [DELIM]) := by simp
  rw [hshape]
  simp only [readIssueId, readProperties_block _ hnd (by simp),
    find?_filtered_append_key PROP_ISSUE F _ hFp (isPrefixOf_self_append _ _),
    drop_keyLine]
  rw [jsTrim_cons_of_ws (by decide)]

theorem readRepo_write_form (F : List Line) (val : Line)
    (hFd : ∀ p ∈ F, p ≠ DELIM) (hFp : ∀ p ∈ F, PROP_REPO.isPrefixOf p = false) :
    readRepo (DELIM :: (F ++ [PROP_REPO ++ ':' :: ' ' :: val, DELIM])) =
      some (jsTrim val) := by
  have hnd : ∀ p ∈ F ++ [PROP_REPO ++ ':' :: ' ' :: val], p ≠ DELIM := by
    intro p hp
    rcases List.mem_append.mp hp with h1 | h2
    · exact hFd p h1
    · rw [List.mem_singleton] at h2
      subst h2
      exact keyLine_ne_delim _ _ (by decide)
  have hshape : (DELIM :: (F ++ [PROP_REPO ++ ':' :: ' ' :: val, DELIM]) : Doc) =
      DELIM :: ((F ++ [PROP_REPO ++ ':' :: ' ' :: val]) ++ [DELIM]) := by simp
  rw [hshape]
  simp only [readRepo, readProperties_block _ hnd (by simp),
    find?_filtered_append_key PROP_REPO F _ hFp (isPrefixOf_self_append _ _),
    drop_keyLine]
  rw [jsTrim_cons_of_ws (by decide)]

theorem readIssueTitle_write_form (F : List Line) (val : Line)
    (hFd : ∀ p ∈ F, p ≠ DELIM) (hFp : ∀ p ∈ F, PROP_TITLE.isPrefixOf p = false)
    (htrim : jsTrim val = val) :
    readIssueTitle (DELIM ::
        (F ++ [PROP_TITLE ++ ':' :: ' ' :: escapeYamlString val, DELIM])) =
      some val := by
  have hnd : ∀ p ∈ F ++ [PROP_TITLE ++ ':' :: ' ' :: escapeYamlString val], p ≠ DELIM := by
    intro p hp
    rcases List.mem_append.mp hp with h1 | h2
    · exact hFd p h1
    · rw [List.mem_singleton] at h2
      subst h2
      exact keyLine_ne_delim _ _ (by decide)
  have hshape : (DELIM :: (F ++ [PROP_TITLE ++ ':' :: ' ' :: escapeYamlString val, DELIM]) : Doc) =
      DELIM :: ((F ++ [PROP_TITLE ++ ':' :: ' ' :: escapeYamlString val]) ++ [DELIM]) := by
    simp
  rw [hshape]
  simp only [readIssueTitle, readProperties_block _ hnd (by simp),
    find?_filtered_append_key PROP_TITLE F _ hFp (isPrefixOf_self_append _ _),
    drop_keyLine]
  rw [jsTrim_cons_of_ws (by decide)]
  by_cases hv : val = []
  · subst hv
    decide
  · by_cases hq : (val.any (fun c => yamlSpecialChars.contains c) || val.contains '\n') = true
    · have he : escapeYamlString val =
          dquote :: jsReplaceAll val [dquote] [bslash, dquote] ++ [dquote] := by
        unfold escapeYamlString
        rw [if_neg hv, if_pos hq]
      rw [he]
      rw [jsTrim_sandwich (jsReplaceAll val [dquote] [bslash, dquote]) (by decide) (by decide)]
      have hpre : [dquote].isPrefixOf
          (dquote :: jsReplaceAll val [dquote] [bslash, dquote] ++ [dquote]) = true := by
        simp [List.isPrefixOf]
      have hsuf : [dquote].isSuffixOf
          (dquote :: jsReplaceAll val [dquote] [bslash, dquote] ++ [dquote]) = true := by
        simp [List.isSuffixOf, List.isPrefixOf]
      rw [hpre, hsuf]
      simp only [Bool.and_self, if_true]
      have hlen : (dquote :: jsReplaceAll val [dquote] [bslash, dquote] ++ [dquote]).length =
          (jsReplaceAll val [dquote] [bslash, dquote]).length + 2 := by simp
      rw [hlen]
      rw [if_neg (by omega)]
      have hdrop : (dquote :: jsReplaceAll val [dquote] [bslash, dquote] ++ [dquote]).drop 1 =
          jsReplaceAll val [dquote] [bslash, dquote] ++ [dquote] := rfl
      rw [hdrop]
      have htake : (jsReplaceAll val [dquote] [bslash, dquote] ++ [dquote]).take
          ((jsReplaceAll val [dquote] [bslash, dquote]).length + 2 - 2) =
          jsReplaceAll val [dquote] [bslash, dquote] := by
        rw [show (jsReplaceAll val [dquote] [bslash, dquote]).length + 2 - 2 =
            (jsReplaceAll val [dquote] [bslash, dquote]).length from by omega]
        exact List.take_left _ _
      rw [htake, unesc_esc]
    · have hqf : (val.any (fun c => yamlSpecialChars.contains c) || val.contains '\n') = false := by
        cases h : (val.any (fun c => yamlSpecialChars.contains c) || val.contains '\n')
        · rfl
        · exact absurd h hq
      have he : escapeYamlString val = val := by
        unfold escapeYamlString
        rw [if_neg hv, if_neg (by rw [hqf]; simp)]
      rw [he, htrim]
      have hnc : [dquote].isPrefixOf val = false := by
        cases hval : val with
        | nil => exact absurd hval hv
        | cons c cs =>
          have hany : val.any (fun c => yamlSpecialChars.contains c) = false :=
            (Bool.or_eq_false_iff.mp hqf).1
          rw [hval] at hany
          have hc : yamlSpecialChars.contains c = false := by
            rw [List.any_cons] at hany
            exact (Bool.or_eq_false_iff.mp hany).1
          have hcd : (dquote == c) = false := by
            cases hdc : (dquote == c)
            · rfl
            · have : dquote = c := by simpa using hdc
              rw [← this] at hc
              exact absurd hc (by decide)
          simp [List.isPrefixOf, hcd]
      rw [hnc]
      simp

/-- C9 (amended): for every document with a well-formed front-matter block
and every value that survives trimming unchanged and contains no newline,
reading a tracked field immediately after writing it with the matching
single-field writer returns exactly the written value, for all three
tracked fields. -/
theorem c9_read_after_write (t : Doc) (v : Line)
    (_hwf : ((readProperties t).properties).isSome = true)
    (htrim : jsTrim v = v) (_hnl : v.contains '\n' = false) :
    readIssueId (writeIssueId t v) = some v ∧
    readRepo (writeRepo t v) = some v ∧
    readIssueTitle (writeIssueTitle t v) = some v := by
  refine ⟨?_, ?_, ?_⟩
  · rcases hps : (readProperties t).properties with _ | ps
    · have hw : writeIssueId t v =
          DELIM :: ([] ++ [PROP_ISSUE ++ ':' :: ' ' :: v, DELIM]) := by
        simp [writeIssueId, hps]
      rw [hw, readIssueId_write_form [] v (by simp) (by simp), htrim]
    · have hfacts := filter_not_includes_facts PROP_ISSUE hps
      have hw : writeIssueId t v =
          DELIM :: (ps.filter (fun p => !(jsIncludes p PROP_ISSUE)) ++
            [PROP_ISSUE ++ ':' :: ' ' :: v, DELIM]) := by
        simp [writeIssueId, hps]
      rw [hw, readIssueId_write_form _ v hfacts.1 hfacts.2, htrim]
  · rcases hps : (readProperties t).properties with _ | ps
    · have hw : writeRepo t v =
          DELIM :: ([] ++ [PROP_REPO ++ ':' :: ' ' :: v, DELIM]) := by
        simp [writeRepo, hps]
      rw [hw, readRepo_write_form [] v (by simp) (by simp), htrim]
    · have hfacts := filter_not_includes_facts PROP_REPO hps
      have hw : writeRepo t v =
          DELIM :: (ps.filter (fun p => !(jsIncludes p PROP_REPO)) ++
            [PROP_REPO ++ ':' :: ' ' :: v, DELIM]) := by
        simp [writeRepo, hps]
      rw [hw, readRepo_write_form _ v hfacts.1 hfacts.2, htrim]
  · rcases hps : (readProperties t).properties with _ | ps
    · have hw : writeIssueTitle t v =
          DELIM :: ([] ++ [PROP_TITLE ++ ':' :: ' ' :: escapeYamlString v, DELIM]) := by
        simp [writeIssueTitle, hps]
      rw [hw, readIssueTitle_write_form [] v (by simp) (by simp) htrim]
    · have hfacts := filter_not_includes_facts PROP_TITLE hps
      have hw : writeIssueTitle t v =
          DELIM :: (ps.filter (fun p => !(jsIncludes p PROP_TITLE)) ++
            [PROP_TITLE ++ ':' :: ' ' :: escapeYamlString v, DELIM]) := by
        simp [writeIssueTitle, hps]
      rw [hw, readIssueTitle_write_form _ v hfacts.1 hfacts.2 htrim]

/-- Witness for C9 at a concrete well-formed document and value. -/
theorem c9_read_after_write_witness :
    readIssueId (writeIssueId ["---".data, "a: b".data, "---".data] "5".data) =
      some "5".data ∧
    readRepo (writeRepo ["---".data, "a: b".data, "---".data] "5".data) =
      some "5".data ∧
    readIssueTitle (writeIssueTitle ["---".data, "a: b".data, "---".data] "5".data) =
      some "5".data :=
  c9_read_after_write ["---".data, "a: b".data, "---".data] "5".data
    (by decide) (by decide) (by decide)

/-- C1 (amended): for every document and any arguments, every existing
property line that does not START WITH one of the three tracked property
names (the filter of the code is prefix-based, not key-based) is still
present with identical text and in its original relative order in the block
read back after writeAllGithubProperties: the untracked lines form a
sublist of the new block. -/
theorem c1_untracked_lines_preserved (data : Doc) (props : GithubProps) :
    List.Sublist
      (((readProperties data).properties.getD []).filter (fun p =>
        !(PROP_ISSUE.isPrefixOf p) && !(PROP_REPO.isPrefixOf p) &&
        !(PROP_TITLE.isPrefixOf p)))
      ((readProperties (writeAllGithubProperties data props)).properties.getD []) := by
  rcases hps : (readProperties data).properties with _ | ps
  · simp [hps, List.nil_sublist]
  · simp only [hps, Option.getD_some]
    have hwrite : writeAllGithubProperties data props =
        DELIM ::
          ((ps.filter (fun p =>
              !(PROP_ISSUE.isPrefixOf p) && !(PROP_REPO.isPrefixOf p) &&
              !(PROP_TITLE.isPrefixOf p)) ++
            (trackedPart PROP_ISSUE (fun v => v) props.issueId (readIssueId data) ++
             trackedPart PROP_REPO (fun v => v) props.repo (readRepo data) ++
             trackedPart PROP_TITLE escapeYamlString props.issueTitle (readIssueTitle data))) ++
           [DELIM]) := by
      simp [writeAllGithubProperties, hps]
    rw [hwrite]
    set F := ps.filter (fun p =>
        !(PROP_ISSUE.isPrefixOf p) && !(PROP_REPO.isPrefixOf p) &&
        !(PROP_TITLE.isPrefixOf p)) with hF
    set rest := trackedPart PROP_ISSUE (fun v => v) props.issueId (readIssueId data) ++
        trackedPart PROP_REPO (fun v => v) props.repo (readRepo data) ++
        trackedPart PROP_TITLE escapeYamlString props.issueTitle (readIssueTitle data)
      with hrest
    by_cases hmid : F ++ rest = []
    · have hFnil : F = [] := (List.append_eq_nil.mp hmid).1
      rw [hFnil]
      exact List.nil_sublist _
    · have hnd : ∀ p ∈ F ++ rest, p ≠ DELIM := by
        intro p hp
        rcases List.mem_append.mp hp with hpF | hpr
        · exact props_ne_delim hps p (List.mem_of_mem_filter hpF)
        · rw [hrest] at hpr
          rcases List.mem_append.mp hpr with h1 | h2
          · rcases List.mem_append.mp h1 with h1a | h1b
            · exact trackedPart_ne_delim (by decide) h1a
            · exact trackedPart_ne_delim (by decide) h1b
          · exact trackedPart_ne_delim (by decide) h2
      rw [readProperties_block (F ++ rest) hnd hmid]
      simp only [Option.getD_some]
      exact List.sublist_append_left F rest

/-- Witness for C10 is below; C10 itself: writeIssueId removes every line
containing the substring github_issue, so a github_issue_title line that
was present in the block before the write is no longer present in the
block after the write. -/
theorem c10_writeIssueId_drops_title_line (data : Doc) (issueId line : Line)
    (hmem : line ∈ (readProperties data).properties.getD [])
    (hpref : PROP_TITLE.isPrefixOf line = true) :
    line ∉ (readProperties (writeIssueId data issueId)).properties.getD [] := by
  rcases hps : (readProperties data).properties with _ | ps
  · rw [hps] at hmem
    simp at hmem
  · have hw : writeIssueId data issueId =
        DELIM :: ((ps.filter (fun p => !(jsIncludes p PROP_ISSUE)) ++
          [PROP_ISSUE ++ ':' :: ' ' :: issueId]) ++ [DELIM]) := by
      simp [writeIssueId, hps]
    have hnd : ∀ p ∈ ps.filter (fun p => !(jsIncludes p PROP_ISSUE)) ++
        [PROP_ISSUE ++ ':' :: ' ' :: issueId], p ≠ DELIM := by
      intro p hp
      rcases List.mem_append.mp hp with h1 | h2
      · exact props_ne_delim hps p (List.mem_of_mem_filter h1)
      · rw [List.mem_singleton] at h2
        subst h2
        exact keyLine_ne_delim _ _ (by decide)
    rw [hw, readProperties_block _ hnd (by simp)]
    simp only [Option.getD_some]
    intro hmem'
    rcases List.mem_append.mp hmem' with h1 | h2
    · have hkeep := (List.mem_filter.mp h1).2
      have hinc : jsIncludes line PROP_ISSUE = true := by
        apply jsIncludes_of_isPrefixOf
        obtain ⟨t, ht⟩ := isPrefixOf_eq_true_iff.mp hpref
        exact isPrefixOf_eq_true_iff.mpr
          ⟨"_title".data ++ t, by rw [ht]; rfl⟩
      rw [hinc] at hkeep
      exact absurd hkeep (by simp)
    · rw [List.mem_singleton] at h2
      obtain ⟨t, ht⟩ := isPrefixOf_eq_true_iff.mp hpref
      rw [ht] at h2
      exact issue_line_ne_title_ext (' ' :: issueId) t h2.symm

/-- Witness for C10: a concrete document whose block holds a title line and
an issue line; after writeIssueId the title line is gone. -/
theorem c10_writeIssueId_drops_title_line_witness :
    "github_issue_title: T".data ∉
      (readProperties (writeIssueId
        ["---".data, "github_issue_title: T".data, "---".data] "7".data)).properties.getD [] :=
  c10_writeIssueId_drops_title_line
    ["---".data, "github_issue_title: T".data, "---".data] "7".data
    "github_issue_title: T".data (by decide) (by decide)

theorem jsSplitChar_ne_nil (s : Line) (sep : Char) : jsSplitChar s sep ≠ [] := by
  cases s with
  | nil => simp [jsSplitChar]
  | cons c cs =>
    simp only [jsSplitChar]
    cases jsSplitChar cs sep with
    | nil => simp
    | cons h t =>
      by_cases hc : c = sep <;> simp [hc]

theorem jsSplitChar_getD_zero (s : Line) (sep : Char) :
    (jsSplitChar s sep).getD 0 [] = s.takeWhile (fun c => !(c == sep)) := by
  induction s with
  | nil => simp [jsSplitChar]
  | cons c cs ih =>
    simp only [jsSplitChar]
    cases heq : jsSplitChar cs sep with
    | nil => exact absurd heq (jsSplitChar_ne_nil cs sep)
    | cons h t =>
      by_cases hc : c = sep
      · subst hc
        simp [List.takeWhile_cons]
      · rw [heq] at ih
        simp at ih
        simp [hc, List.takeWhile_cons, ih]

theorem jsSplitChar_append {pre : Line} (post : Line) {sep : Char} (h : sep ∉ pre) :
    jsSplitChar (pre ++ sep :: post) sep = pre :: jsSplitChar post sep := by
  induction pre with
  | nil =>
    simp only [List.nil_append, jsSplitChar]
    cases heq : jsSplitChar post sep with
    | nil => exact absurd heq (jsSplitChar_ne_nil post sep)
    | cons hh tt => simp
  | cons a pre' ih =>
    have ha : a ≠ sep := fun he => h (he ▸ List.mem_cons_self a pre')
    have h' : sep ∉ pre' := fun hm => h (List.mem_cons_of_mem a hm)
    have hstep : jsSplitChar ((a :: pre') ++ sep :: post) sep =
        match jsSplitChar (pre' ++ sep :: post) sep with
        | [] => [[]]
        | h :: t => if a = sep then [] :: h :: t else (a :: h) :: t := rfl
    rw [hstep, ih h']
    simp [ha]

/-- C7 (amended): a non-absent, nonempty override containing a slash is
split on EVERY slash and only the first two segments are kept: owner is the
trimmed text before the first slash and repo is the trimmed text between
the first slash and the next one (to the end when there is no second
slash), any later segments being discarded; a nonempty input without a
slash yields only the trimmed repo; an absent input yields both absent. -/
theorem c7_parse_override :
    (∀ pre post : Line, '/' ∉ pre →
      parseRepoOverride (some (pre ++ '/' :: post)) =
        ⟨some (jsTrim pre), some (jsTrim (post.takeWhile (fun c => !(c == '/'))))⟩) ∧
    (∀ s : Line, s ≠ [] → '/' ∉ s →
      parseRepoOverride (some s) = ⟨none, some (jsTrim s)⟩) ∧
    parseRepoOverride none = ⟨none, none⟩ := by
  refine ⟨?_, ?_, rfl⟩
  · intro pre post hpre
    have hne : pre ++ '/' :: post ≠ [] := by simp
    have hcont : (pre ++ '/' :: post).contains '/' = true := by
      simp
    simp only [parseRepoOverride, hne, if_false, hcont, if_pos]
    rw [jsSplitChar_append post hpre]
    simp only [List.getD_cons_zero, List.getD_cons_succ]
    rw [show ((jsSplitChar post '/').getD 0 [] : Line) =
        post.takeWhile (fun c => !(c == '/')) from jsSplitChar_getD_zero post '/']
  · intro s hne hnot
    have hcont : s.contains '/' = false := by
      cases h : s.contains '/'
      · rfl
      · exact absurd (by simpa using h) hnot
    simp only [parseRepoOverride, hne, if_false, hcont]
    rfl

/-- Witness for C7: the multi-slash input a/b/c evaluates to owner a and
repo b. -/
theorem c7_parse_override_witness :
    parseRepoOverride (some "a/b/c".data) = ⟨some "a".data, some "b".data⟩ := by
  have h := c7_parse_override.1 "a".data "b/c".data (by decide)
  rw [show ("a".data ++ '/' :: "b/c".data) = "a/b/c".data from by decide] at h
  rw [h]
  decide

/-- C8 (amended): getEffectiveRepoSettings performs no syntactic validation
of the override segments, but empty segments do NOT pass through: the
JavaScript or-operator treats the empty string as falsy, so an empty or
absent owner or repo segment falls back to the corresponding global
setting, while any nonempty segment passes through unvalidated; the token
always comes from the global settings. -/
theorem c8_effective_settings (data : Doc) (settings : RepoSettings) :
    ((parseRepoOverride (readRepo data)).owner = none ∨
        (parseRepoOverride (readRepo data)).owner = some [] →
      (getEffectiveRepoSettings data settings).owner = settings.owner) ∧
    (∀ v, (parseRepoOverride (readRepo data)).owner = some v → v ≠ [] →
      (getEffectiveRepoSettings data settings).owner = v) ∧
    (∀ v, (parseRepoOverride (readRepo data)).repo = some v → v ≠ [] →
      (getEffectiveRepoSettings data settings).repo = v) ∧
    (getEffectiveRepoSettings data settings).token = settings.token := by
  refine ⟨?_, ?_, ?_, rfl⟩
  · intro h
    simp only [getEffectiveRepoSettings]
    rcases h with h | h <;> rw [h] <;> simp [jsOrElse]
  · intro v hv hne
    simp only [getEffectiveRepoSettings]
    rw [hv]
    simp [jsOrElse, hne]
  · intro v hv hne
    simp only [getEffectiveRepoSettings]
    rw [hv]
    simp [jsOrElse, hne]

/-- Witness for C8: a document with the override o/widgets gets owner o
from the override and token from the global settings. -/
theorem c8_effective_settings_witness :
    (getEffectiveRepoSettings ["---".data, "github_repo: o/widgets".data, "---".data]
        ⟨"g".data, "r".data, "t".data⟩).owner = "o".data ∧
    (getEffectiveRepoSettings ["---".data, "github_repo: o/widgets".data, "---".data]
        ⟨"g".data, "r".data, "t".data⟩).token = "t".data :=
  ⟨(c8_effective_settings ["---".data, "github_repo: o/widgets".data, "---".data]
      ⟨"g".data, "r".data, "t".data⟩).2.1 "o".data (by decide) (by decide),
   (c8_effective_settings ["---".data, "github_repo: o/widgets".data, "---".data]
      ⟨"g".data, "r".data, "t".data⟩).2.2.2⟩

theorem issue_keyline_src (other tpI tpR tpT : List Line) {w : Line}
    (hO : ∀ p ∈ other, PROP_ISSUE.isPrefixOf p = false)
    (hR : ∀ p ∈ tpR, ∃ u, p = PROP_REPO ++ ':' :: ' ' :: u)
    (hT : ∀ p ∈ tpT, ∃ u, p = PROP_TITLE ++ ':' :: ' ' :: u)
    (hmem : (PROP_ISSUE ++ ':' :: ' ' :: w) ∈
      DELIM :: ((((other ++ tpI) ++ tpR) ++ tpT) ++ [DELIM])) :
    (PROP_ISSUE ++ ':' :: ' ' :: w) ∈ tpI := by
  rcases List.mem_cons.mp hmem with h | hm2
  · exact absurd h (keyLine_ne_delim _ _ (by decide))
  rcases List.mem_append.mp hm2 with hm3 | h
  swap
  · rw [List.mem_singleton] at h
    exact absurd h (keyLine_ne_delim _ _ (by decide))
  rcases List.mem_append.mp hm3 with hm4 | h
  swap
  · obtain ⟨u, hu⟩ := hT _ h
    exact absurd hu (issue_line_ne_title_ext (' ' :: w) (':' :: ' ' :: u))
  rcases List.mem_append.mp hm4 with hm5 | h
  swap
  · obtain ⟨u, hu⟩ := hR _ h
    exact absurd hu (issue_line_ne_repo_ext (':' :: ' ' :: w) (':' :: ' ' :: u))
  rcases List.mem_append.mp hm5 with h | h
  · have hp := hO _ h
    rw [isPrefixOf_self_append] at hp
    exact absurd hp (by simp)
  · exact h

theorem repo_keyline_src (other tpI tpR tpT : List Line) {w : Line}
    (hO : ∀ p ∈ other, PROP_REPO.isPrefixOf p = false)
    (hI : ∀ p ∈ tpI, ∃ u, p = PROP_ISSUE ++ ':' :: ' ' :: u)
    (hT : ∀ p ∈ tpT, ∃ u, p = PROP_TITLE ++ ':' :: ' ' :: u)
    (hmem : (PROP_REPO ++ ':' :: ' ' :: w) ∈
      DELIM :: ((((other ++ tpI) ++ tpR) ++ tpT) ++ [DELIM])) :
    (PROP_REPO ++ ':' :: ' ' :: w) ∈ tpR := by
  rcases List.mem_cons.mp hmem with h | hm2
  · exact absurd h (keyLine_ne_delim _ _ (by decide))
  rcases List.mem_append.mp hm2 with hm3 | h
  swap
  · rw [List.mem_singleton] at h
    exact absurd h (keyLine_ne_delim _ _ (by decide))
  rcases List.mem_append.mp hm3 with hm4 | h
  swap
  · obtain ⟨u, hu⟩ := hT _ h
    exact absurd hu (repo_line_ne_title_ext (':' :: ' ' :: w) (':' :: ' ' :: u))
  rcases List.mem_append.mp hm4 with hm5 | h
  swap
  · exact h
  rcases List.mem_append.mp hm5 with h | h
  · have hp := hO _ h
    rw [isPrefixOf_self_append] at hp
    exact absurd hp (by simp)
  · obtain ⟨u, hu⟩ := hI _ h
    exact absurd hu.symm (issue_line_ne_repo_ext (':' :: ' ' :: u) (':' :: ' ' :: w))

theorem title_keyline_src (other tpI tpR tpT : List Line) {w : Line}
    (hO : ∀ p ∈ other, PROP_TITLE.isPrefixOf p = false)
    (hI : ∀ p ∈ tpI, ∃ u, p = PROP_ISSUE ++ ':' :: ' ' :: u)
    (hR : ∀ p ∈ tpR, ∃ u, p = PROP_REPO ++ ':' :: ' ' :: u)
    (hmem : (PROP_TITLE ++ ':' :: ' ' :: w) ∈
      DELIM :: ((((other ++ tpI) ++ tpR) ++ tpT) ++ [DELIM])) :
    (PROP_TITLE ++ ':' :: ' ' :: w) ∈ tpT := by
  rcases List.mem_cons.mp hmem with h | hm2
  · exact absurd h (keyLine_ne_delim _ _ (by decide))
  rcases List.mem_append.mp hm2 with hm3 | h
  swap
  · rw [List.mem_singleton] at h
    exact absurd h (keyLine_ne_delim _ _ (by decide))
  rcases List.mem_append.mp hm3 with hm4 | h
  swap
  · exact h
  rcases List.mem_append.mp hm4 with hm5 | h
  swap
  · obtain ⟨u, hu⟩ := hR _ h
    exact absurd hu.symm (repo_line_ne_title_ext (':' :: ' ' :: u) (':' :: ' ' :: w))
  rcases List.mem_append.mp hm5 with h | h
  · have hp := hO _ h
    rw [isPrefixOf_self_append] at hp
    exact absurd hp (by simp)
  · obtain ⟨u, hu⟩ := hI _ h
    exact absurd hu.symm (issue_line_ne_title_ext (' ' :: u) (':' :: ' ' :: w))

theorem cleared_write_reads (other : List Line)
    (hOd : ∀ p ∈ other, p ≠ DELIM)
    (hOi : ∀ p ∈ other, PROP_ISSUE.isPrefixOf p = false)
    (hOr : ∀ p ∈ other, PROP_REPO.isPrefixOf p = false)
    (hOt : ∀ p ∈ other, PROP_TITLE.isPrefixOf p = false) :
    readIssueId (DELIM :: ((((other ++ [PROP_ISSUE ++ ':' :: ' ' :: []]) ++
        [PROP_REPO ++ ':' :: ' ' :: []]) ++ [PROP_TITLE ++ ':' :: ' ' :: []]) ++ [DELIM])) =
      some [] ∧
    readRepo (DELIM :: ((((other ++ [PROP_ISSUE ++ ':' :: ' ' :: []]) ++
        [PROP_REPO ++ ':' :: ' ' :: []]) ++ [PROP_TITLE ++ ':' :: ' ' :: []]) ++ [DELIM])) =
      some [] ∧
    readIssueTitle (DELIM :: ((((other ++ [PROP_ISSUE ++ ':' :: ' ' :: []]) ++
        [PROP_REPO ++ ':' :: ' ' :: []]) ++ [PROP_TITLE ++ ':' :: ' ' :: []]) ++ [DELIM])) =
      some [] := by
  have hnd : ∀ p ∈ ((other ++ [PROP_ISSUE ++ ':' :: ' ' :: []]) ++
      [PROP_REPO ++ ':' :: ' ' :: []]) ++ [PROP_TITLE ++ ':' :: ' ' :: []], p ≠ DELIM := by
    intro p hp
    rcases List.mem_append.mp hp with hm1 | h
    swap
    · rw [List.mem_singleton] at h
      subst h
      exact keyLine_ne_delim _ _ (by decide)
    rcases List.mem_append.mp hm1 with hm2 | h
    swap
    · rw [List.mem_singleton] at h
      subst h
      exact keyLine_ne_delim _ _ (by decide)
    rcases List.mem_append.mp hm2 with h | h
    · exact hOd _ h
    · rw [List.mem_singleton] at h
      subst h
      exact keyLine_ne_delim _ _ (by decide)
  have hread := readProperties_block _ hnd (by simp)
  have hni_r : PROP_REPO.isPrefixOf (PROP_ISSUE ++ ':' :: ' ' :: []) = false :=
    not_prefixOf_of_ne (fun t => issue_line_ne_repo_ext (':' :: ' ' :: []) t)
  have hni_t : PROP_TITLE.isPrefixOf (PROP_ISSUE ++ ':' :: ' ' :: []) = false :=
    not_prefixOf_of_ne (fun t => issue_line_ne_title_ext (' ' :: []) t)
  have hnr_t : PROP_TITLE.isPrefixOf (PROP_REPO ++ ':' :: ' ' :: []) = false :=
    not_prefixOf_of_ne (fun t => fun he => repo_line_ne_title_ext (':' :: ' ' :: []) t he)
  refine ⟨?_, ?_, ?_⟩
  · simp only [readIssueId, hread]
    rw [List.append_assoc, List.append_assoc]
    rw [find?_append_of_left_none hOi]
    rw [List.singleton_append]
    rw [List.find?_cons_of_pos _ (isPrefixOf_self_append _ _)]
    decide
  · simp only [readRepo, hread]
    rw [List.append_assoc, List.append_assoc]
    rw [find?_append_of_left_none hOr]
    rw [List.singleton_append]
    rw [List.find?_cons_of_neg _ (by simp [hni_r])]
    rw [List.singleton_append]
    rw [List.find?_cons_of_pos _ (isPrefixOf_self_append _ _)]
    decide
  · simp only [readIssueTitle, hread]
    rw [List.append_assoc, List.append_assoc]
    rw [find?_append_of_left_none hOt]
    rw [List.singleton_append]
    rw [List.find?_cons_of_neg _ (by simp [hni_t])]
    rw [List.singleton_append]
    rw [List.find?_cons_of_neg _ (by simp [hnr_t])]
    rw [List.find?_cons_of_pos _ (isPrefixOf_self_append _ _)]
    decide

theorem c6_core (data : Doc) (other : List Line)
    (hOfacts : ∀ p ∈ other,
      (PROP_ISSUE.isPrefixOf p = false ∧ PROP_REPO.isPrefixOf p = false ∧
       PROP_TITLE.isPrefixOf p = false) ∧ p ≠ DELIM)
    (hwC : writeAllGithubProperties data ⟨some [], some [], some []⟩ =
      DELIM :: ((((other ++ [PROP_ISSUE ++ ':' :: ' ' :: []]) ++
        [PROP_REPO ++ ':' :: ' ' :: []]) ++ [PROP_TITLE ++ ':' :: ' ' :: []]) ++ [DELIM]))
    (hwU : writeAllGithubProperties data ⟨none, none, none⟩ =
      DELIM :: ((((other ++ trackedPart PROP_ISSUE (fun v => v) none (readIssueId data)) ++
        trackedPart PROP_REPO (fun v => v) none (readRepo data)) ++
        trackedPart PROP_TITLE escapeYamlString none (readIssueTitle data)) ++ [DELIM])) :
    (readIssueId (writeAllGithubProperties data ⟨some [], some [], some []⟩) = some [] ∧
     readRepo (writeAllGithubProperties data ⟨some [], some [], some []⟩) = some [] ∧
     readIssueTitle (writeAllGithubProperties data ⟨some [], some [], some []⟩) = some []) ∧
    (∀ ex, readIssueId data = some ex → ex ≠ [] →
      (PROP_ISSUE ++ ':' :: ' ' :: ex) ∈ writeAllGithubProperties data ⟨none, none, none⟩ ∧
      (PROP_ISSUE ++ ':' :: ' ' :: ex) ∉
        writeAllGithubProperties data ⟨some [], some [], some []⟩) ∧
    (∀ ex, readRepo data = some ex → ex ≠ [] →
      (PROP_REPO ++ ':' :: ' ' :: ex) ∈ writeAllGithubProperties data ⟨none, none, none⟩ ∧
      (PROP_REPO ++ ':' :: ' ' :: ex) ∉
        writeAllGithubProperties data ⟨some [], some [], some []⟩) ∧
    (∀ ex, readIssueTitle data = some ex → ex ≠ [] →
      (PROP_TITLE ++ ':' :: ' ' :: escapeYamlString ex) ∈
        writeAllGithubProperties data ⟨none, none, none⟩ ∧
      (PROP_TITLE ++ ':' :: ' ' :: escapeYamlString ex) ∉
        writeAllGithubProperties data ⟨some [], some [], some []⟩) ∧
    (readIssueId data = some [] →
      ∀ w, (PROP_ISSUE ++ ':' :: ' ' :: w) ∉
        writeAllGithubProperties data ⟨none, none, none⟩) ∧
    (readRepo data = some [] →
      ∀ w, (PROP_REPO ++ ':' :: ' ' :: w) ∉
        writeAllGithubProperties data ⟨none, none, none⟩) ∧
    (readIssueTitle data = some [] →
      ∀ w, (PROP_TITLE ++ ':' :: ' ' :: w) ∉
        writeAllGithubProperties data ⟨none, none, none⟩) := by
  have hOi : ∀ p ∈ other, PROP_ISSUE.isPrefixOf p = false := fun p hp => ((hOfacts p hp).1).1
  have hOr : ∀ p ∈ other, PROP_REPO.isPrefixOf p = false := fun p hp => ((hOfacts p hp).1).2.1
  have hOt : ∀ p ∈ other, PROP_TITLE.isPrefixOf p = false := fun p hp => ((hOfacts p hp).1).2.2
  have hOd : ∀ p ∈ other, p ≠ DELIM := fun p hp => (hOfacts p hp).2
  have hshapeC_I : ∀ p ∈ [PROP_ISSUE ++ ':' :: ' ' :: ([] : Line)],
      ∃ u, p = PROP_ISSUE ++ ':' :: ' ' :: u := by
    intro p hp
    rw [List.mem_singleton] at hp
    exact ⟨[], hp⟩
  have hshapeC_R : ∀ p ∈ [PROP_REPO ++ ':' :: ' ' :: ([] : Line)],
      ∃ u, p = PROP_REPO ++ ':' :: ' ' :: u := by
    intro p hp
    rw [List.mem_singleton] at hp
    exact ⟨[], hp⟩
  have hshapeC_T : ∀ p ∈ [PROP_TITLE ++ ':' :: ' ' :: ([] : Line)],
      ∃ u, p = PROP_TITLE ++ ':' :: ' ' :: u := by
    intro p hp
    rw [List.mem_singleton] at hp
    exact ⟨[], hp⟩
  have hshapeU_I : ∀ p ∈ trackedPart PROP_ISSUE (fun v => v) none (readIssueId data),
      ∃ u, p = PROP_ISSUE ++ ':' :: ' ' :: u := fun _ hp => trackedPart_shape hp
  have hshapeU_R : ∀ p ∈ trackedPart PROP_REPO (fun v => v) none (readRepo data),
      ∃ u, p = PROP_REPO ++ ':' :: ' ' :: u := fun _ hp => trackedPart_shape hp
  have hshapeU_T : ∀ p ∈ trackedPart PROP_TITLE escapeYamlString none (readIssueTitle data),
      ∃ u, p = PROP_TITLE ++ ':' :: ' ' :: u := fun _ hp => trackedPart_shape hp
  refine ⟨?_, ?_, ?_, ?_, ?_, ?_, ?_⟩
  · rw [hwC]
    exact cleared_write_reads other hOd hOi hOr hOt
  · intro ex hex hne
    constructor
    · rw [hwU]
      have htp : trackedPart PROP_ISSUE (fun v => v) none (readIssueId data) =
          [PROP_ISSUE ++ ':' :: ' ' :: ex] := by
        simp [trackedPart, hex, hne]
      rw [htp]
      simp
    · intro hm
      rw [hwC] at hm
      have hsrc := issue_keyline_src other _ _ _ hOi hshapeC_R hshapeC_T hm
      rw [List.mem_singleton] at hsrc
      have hc := List.append_cancel_left hsrc
      injection hc with h1 h2
      injection h2 with h3 h4
      exact hne h4
  · intro ex hex hne
    constructor
    · rw [hwU]
      have htp : trackedPart PROP_REPO (fun v => v) none (readRepo data) =
          [PROP_REPO ++ ':' :: ' ' :: ex] := by
        simp [trackedPart, hex, hne]
      rw [htp]
      simp
    · intro hm
      rw [hwC] at hm
      have hsrc := repo_keyline_src other _ _ _ hOr hshapeC_I hshapeC_T hm
      rw [List.mem_singleton] at hsrc
      have hc := List.append_cancel_left hsrc
      injection hc with h1 h2
      injection h2 with h3 h4
      exact hne h4
  · intro ex hex hne
    constructor
    · rw [hwU]
      have htp : trackedPart PROP_TITLE escapeYamlString none (readIssueTitle data) =
          [PROP_TITLE ++ ':' :: ' ' :: escapeYamlString ex] := by
        simp [trackedPart, hex, hne]
      rw [htp]
      simp
    · intro hm
      rw [hwC] at hm
      have hsrc := title_keyline_src other _ _ _ hOt hshapeC_I hshapeC_R hm
      rw [List.mem_singleton] at hsrc
      have hc := List.append_cancel_left hsrc
      injection hc with h1 h2
      injection h2 with h3 h4
      exact escape_ne_nil hne h4
  · intro hex0 w hm
    rw [hwU] at hm
    have htp : trackedPart PROP_ISSUE (fun v => v) none (readIssueId data) = [] := by
      simp [trackedPart, hex0]
    rw [htp] at hm
    have hsrc := issue_keyline_src other _ _ _ hOi hshapeU_R hshapeU_T hm
    simp at hsrc
  · intro hex0 w hm
    rw [hwU] at hm
    have htp : trackedPart PROP_REPO (fun v => v) none (readRepo data) = [] := by
      simp [trackedPart, hex0]
    rw [htp] at hm
    have hsrc := repo_keyline_src other _ _ _ hOr hshapeU_I hshapeU_T hm
    simp at hsrc
  · intro hex0 w hm
    rw [hwU] at hm
    have htp : trackedPart PROP_TITLE escapeYamlString none (readIssueTitle data) = [] := by
      simp [trackedPart, hex0]
    rw [htp] at hm
    have hsrc := title_keyline_src other _ _ _ hOt hshapeU_I hshapeU_R hm
    simp at hsrc

/-- C6 (amended): for each of the three tracked keys, writeAllGithubProperties
preserves the distinction between a supplied empty string and an unsupplied
(undefined) field, but an explicit empty string does not omit the key: it
writes the key line with an empty value (which reads back as the empty
string), while an unsupplied field carries an existing nonempty value
forward as its own key line (the title value passing through
escapeYamlString again), a line that never appears in the cleared output;
and an existing EMPTY value is not carried forward at all (the falsy check
skips the key). -/
theorem c6_empty_vs_undefined (data : Doc) :
    (readIssueId (writeAllGithubProperties data ⟨some [], some [], some []⟩) = some [] ∧
     readRepo (writeAllGithubProperties data ⟨some [], some [], some []⟩) = some [] ∧
     readIssueTitle (writeAllGithubProperties data ⟨some [], some [], some []⟩) = some []) ∧
    (∀ ex, readIssueId data = some ex → ex ≠ [] →
      (PROP_ISSUE ++ ':' :: ' ' :: ex) ∈ writeAllGithubProperties data ⟨none, none, none⟩ ∧
      (PROP_ISSUE ++ ':' :: ' ' :: ex) ∉
        writeAllGithubProperties data ⟨some [], some [], some []⟩) ∧
    (∀ ex, readRepo data = some ex → ex ≠ [] →
      (PROP_REPO ++ ':' :: ' ' :: ex) ∈ writeAllGithubProperties data ⟨none, none, none⟩ ∧
      (PROP_REPO ++ ':' :: ' ' :: ex) ∉
        writeAllGithubProperties data ⟨some [], some [], some []⟩) ∧
    (∀ ex, readIssueTitle data = some ex → ex ≠ [] →
      (PROP_TITLE ++ ':' :: ' ' :: escapeYamlString ex) ∈
        writeAllGithubProperties data ⟨none, none, none⟩ ∧
      (PROP_TITLE ++ ':' :: ' ' :: escapeYamlString ex) ∉
        writeAllGithubProperties data ⟨some [], some [], some []⟩) ∧
    (readIssueId data = some [] →
      ∀ w, (PROP_ISSUE ++ ':' :: ' ' :: w) ∉
        writeAllGithubProperties data ⟨none, none, none⟩) ∧
    (readRepo data = some [] →
      ∀ w, (PROP_REPO ++ ':' :: ' ' :: w) ∉
        writeAllGithubProperties data ⟨none, none, none⟩) ∧
    (readIssueTitle data = some [] →
      ∀ w, (PROP_TITLE ++ ':' :: ' ' :: w) ∉
        writeAllGithubProperties data ⟨none, none, none⟩) := by
  rcases hps : (readProperties data).properties with _ | ps
  · have hwC : writeAllGithubProperties data ⟨some [], some [], some []⟩ =
        DELIM :: (((([] ++ [PROP_ISSUE ++ ':' :: ' ' :: []]) ++
          [PROP_REPO ++ ':' :: ' ' :: []]) ++ [PROP_TITLE ++ ':' :: ' ' :: []]) ++ [DELIM]) := by
      simp only [writeAllGithubProperties, hps]
      rfl
    have hwU : writeAllGithubProperties data ⟨none, none, none⟩ =
        DELIM :: (((([] ++ trackedPart PROP_ISSUE (fun v => v) none (readIssueId data)) ++
          trackedPart PROP_REPO (fun v => v) none (readRepo data)) ++
          trackedPart PROP_TITLE escapeYamlString none (readIssueTitle data)) ++ [DELIM]) := by
      simp only [writeAllGithubProperties, hps]
    exact c6_core data [] (by intro p hp; simp at hp) hwC hwU
  · have hOfacts : ∀ p ∈ ps.filter (fun p =>
        !(PROP_ISSUE.isPrefixOf p) && !(PROP_REPO.isPrefixOf p) &&
        !(PROP_TITLE.isPrefixOf p)),
        (PROP_ISSUE.isPrefixOf p = false ∧ PROP_REPO.isPrefixOf p = false ∧
         PROP_TITLE.isPrefixOf p = false) ∧ p ≠ DELIM := by
      intro p hp
      have h2 := (List.mem_filter.mp hp).2
      refine ⟨⟨?_, ?_, ?_⟩, props_ne_delim hps p (List.mem_of_mem_filter hp)⟩
      · cases h : PROP_ISSUE.isPrefixOf p
        · rfl
        · rw [h] at h2
          simp at h2
      · cases h : PROP_REPO.isPrefixOf p
        · rfl
        · rw [h] at h2
          simp at h2
      · cases h : PROP_TITLE.isPrefixOf p
        · rfl
        · rw [h] at h2
          simp at h2
    have hwC : writeAllGithubProperties data ⟨some [], some [], some []⟩ =
        DELIM :: ((((ps.filter (fun p =>
            !(PROP_ISSUE.isPrefixOf p) && !(PROP_REPO.isPrefixOf p) &&
            !(PROP_TITLE.isPrefixOf p)) ++ [PROP_ISSUE ++ ':' :: ' ' :: []]) ++
          [PROP_REPO ++ ':' :: ' ' :: []]) ++ [PROP_TITLE ++ ':' :: ' ' :: []]) ++ [DELIM]) := by
      simp only [writeAllGithubProperties, hps]
      rfl
    have hwU : writeAllGithubProperties data ⟨none, none, none⟩ =
        DELIM :: ((((ps.filter (fun p =>
            !(PROP_ISSUE.isPrefixOf p) && !(PROP_REPO.isPrefixOf p) &&
            !(PROP_TITLE.isPrefixOf p)) ++
          trackedPart PROP_ISSUE (fun v => v) none (readIssueId data)) ++
          trackedPart PROP_REPO (fun v => v) none (readRepo data)) ++
          trackedPart PROP_TITLE escapeYamlString none (readIssueTitle data)) ++ [DELIM]) := by
      simp only [writeAllGithubProperties, hps]
    exact c6_core data _ hOfacts hwC hwU

/-- Witness for C6 at two concrete documents: one whose block holds nonempty
values for all three tracked keys, one whose block holds empty values for
all three. -/
theorem c6_empty_vs_undefined_witness :
    readIssueId (writeAllGithubProperties
      ["---".data, "github_issue: 7".data, "github_repo: o/r".data,
       "github_issue_title: T".data, "---".data] ⟨some [], some [], some []⟩) = some [] ∧
    readRepo (writeAllGithubProperties
      ["---".data, "github_issue: 7".data, "github_repo: o/r".data,
       "github_issue_title: T".data, "---".data] ⟨some [], some [], some []⟩) = some [] ∧
    readIssueTitle (writeAllGithubProperties
      ["---".data, "github_issue: 7".data, "github_repo: o/r".data,
       "github_issue_title: T".data, "---".data] ⟨some [], some [], some []⟩) = some [] ∧
    (PROP_ISSUE ++ ':' :: ' ' :: "7".data) ∈ writeAllGithubProperties
      ["---".data, "github_issue: 7".data, "github_repo: o/r".data,
       "github_issue_title: T".data, "---".data] ⟨none, none, none⟩ ∧
    (PROP_ISSUE ++ ':' :: ' ' :: "7".data) ∉ writeAllGithubProperties
      ["---".data, "github_issue: 7".data, "github_repo: o/r".data,
       "github_issue_title: T".data, "---".data] ⟨some [], some [], some []⟩ ∧
    (PROP_REPO ++ ':' :: ' ' :: "o/r".data) ∈ writeAllGithubProperties
      ["---".data, "github_issue: 7".data, "github_repo: o/r".data,
       "github_issue_title: T".data, "---".data] ⟨none, none, none⟩ ∧
    (PROP_TITLE ++ ':' :: ' ' :: escapeYamlString "T".data) ∈ writeAllGithubProperties
      ["---".data, "github_issue: 7".data, "github_repo: o/r".data,
       "github_issue_title: T".data, "---".data] ⟨none, none, none⟩ ∧
    (PROP_ISSUE ++ ':' :: ' ' :: "9".data) ∉ writeAllGithubProperties
      ["---".data, "github_issue: ".data, "github_repo: ".data,
       "github_issue_title: ".data, "---".data] ⟨none, none, none⟩ ∧
    (PROP_REPO ++ ':' :: ' ' :: "9".data) ∉ writeAllGithubProperties
      ["---".data, "github_issue: ".data, "github_repo: ".data,
       "github_issue_title: ".data, "---".data] ⟨none, none, none⟩ ∧
    (PROP_TITLE ++ ':' :: ' ' :: "9".data) ∉ writeAllGithubProperties
      ["---".data, "github_issue: ".data, "github_repo: ".data,
       "github_issue_title: ".data, "---".data] ⟨none, none, none⟩ :=
  ⟨(c6_empty_vs_undefined ["---".data, "github_issue: 7".data, "github_repo: o/r".data,
      "github_issue_title: T".data, "---".data]).1.1,
   (c6_empty_vs_undefined ["---".data, "github_issue: 7".data, "github_repo: o/r".data,
      "github_issue_title: T".data, "---".data]).1.2.1,
   (c6_empty_vs_undefined ["---".data, "github_issue: 7".data, "github_repo: o/r".data,
      "github_issue_title: T".data, "---".data]).1.2.2,
   ((c6_empty_vs_undefined ["---".data, "github_issue: 7".data, "github_repo: o/r".data,
      "github_issue_title: T".data, "---".data]).2.1 "7".data (by decide) (by decide)).1,
   ((c6_empty_vs_undefined ["---".data, "github_issue: 7".data, "github_repo: o/r".data,
      "github_issue_title: T".data, "---".data]).2.1 "7".data (by decide) (by decide)).2,
   ((c6_empty_vs_undefined ["---".data, "github_issue: 7".data, "github_repo: o/r".data,
      "github_issue_title: T".data, "---".data]).2.2.1 "o/r".data (by decide) (by decide)).1,
   ((c6_empty_vs_undefined ["---".data, "github_issue: 7".data, "github_repo: o/r".data,
      "github_issue_title: T".data, "---".data]).2.2.2.1 "T".data (by decide) (by decide)).1,
   (c6_empty_vs_undefined ["---".data, "github_issue: ".data, "github_repo: ".data,
      "github_issue_title: ".data, "---".data]).2.2.2.2.1 (by decide) "9".data,
   (c6_empty_vs_undefined ["---".data, "github_issue: ".data, "github_repo: ".data,
      "github_issue_title: ".data, "---".data]).2.2.2.2.2.1 (by decide) "9".data,
   (c6_empty_vs_undefined ["---".data, "github_issue: ".data, "github_repo: ".data,
      "github_issue_title: ".data, "---".data]).2.2.2.2.2.2 (by decide) "9".data⟩

end GitHobs
